import Mathlib

/-!
The package domino of gojafs: path resolver, mutation collector, change
tracker, event trigger and error diagnostics.

A shallow embedding of `src/domino/domino.go`.  Script evaluation, the network
provider and the clock are outside the repository and enter as parameters.
-/

namespace Gojafs

/-- A Go string is a sequence of bytes; it is modelled by the list of its
bytes, one `Char` per byte (an ASCII text is the list of its characters). -/
abbrev Str := List Char

/-! ## The Go standard library functions the code calls -/

/-- The Go function `strings.HasPrefix`. -/
def startsWith (s p : Str) : Bool := p.isPrefixOf s

/-- The Go function `strings.TrimPrefix`. -/
def trimStart (s p : Str) : Str := if startsWith s p then s.drop p.length else s

/-- The Go function `strings.Split(s, sep)` for a one-byte separator. -/
def Split (sep : Char) : Str → List Str
  | [] => [[]]
  | c :: cs =>
    if c = sep then [] :: Split sep cs
    else
      match Split sep cs with
      | [] => [[c]]
      | seg :: segs => (c :: seg) :: segs

/-- The Go function `strings.Join`. -/
def Join (sep : Str) : List Str → Str
  | [] => []
  | [x] => x
  | x :: y :: rest => x ++ sep ++ Join sep (y :: rest)

/-- The Go function `strings.Index`: byte index of the first occurrence of
`sub` in `s`, or `-1`. -/
def Index (sub : Str) : Str → Int
  | [] => if sub = [] then 0 else -1
  | c :: cs =>
    if startsWith (c :: cs) sub then 0
    else
      let r := Index sub cs
      if r < 0 then -1 else r + 1

/-- The Go call `strings.Replace(s, old, new, 1)` for a non-empty `old`:
the first occurrence of `old` is replaced. -/
def ReplaceFirst (old new : Str) : Str → Str
  | [] => []
  | c :: cs =>
    if startsWith (c :: cs) old then new ++ (c :: cs).drop old.length
    else c :: ReplaceFirst old new cs

/-- Wrap-around of Go's 64-bit `int` arithmetic. -/
def wrapInt (z : Int) : Int := (z + 2 ^ 63) % 2 ^ 64 - 2 ^ 63

/-- The error kinds of `strconv.NumError`. -/
inductive NumError where
  | syntaxErr
  | rangeErr
deriving DecidableEq, Repr

/-- Result of `strconv.ParseUint(s, 10, 64)`. -/
inductive UintResult where
  | value (n : Nat)
  | bad (e : NumError)
deriving DecidableEq, Repr

/-- The digit loop of `strconv.ParseUint` in base 10 with 64 bits:
a byte that is not a decimal digit is a syntax error, an overflow is a range
error reported as soon as it happens. -/
def parseUintLoop : Str → Nat → UintResult
  | [], n => .value n
  | c :: cs, n =>
    if '0' ≤ c ∧ c ≤ '9' then
      if n ≥ (2 ^ 64 - 1) / 10 + 1 then .bad .rangeErr
      else if n * 10 + (c.toNat - 48) ≥ 2 ^ 64 then .bad .rangeErr
      else parseUintLoop cs (n * 10 + (c.toNat - 48))
    else .bad .syntaxErr

/-- The Go function `strconv.ParseUint(s, 10, 64)`. -/
def ParseUint (s : Str) : UintResult :=
  if s = [] then .bad .syntaxErr else parseUintLoop s 0

/-- The part of `strconv.ParseInt` after its call of `ParseUint`: the range
check against the sign, and the negation.  On a syntax error the value is 0,
on a range error it is the nearest bound. -/
def signUint (neg : Bool) : UintResult → Int × Option NumError
  | .bad .syntaxErr => (0, some .syntaxErr)
  | .bad .rangeErr => if neg then (-(2 ^ 63), some .rangeErr) else (2 ^ 63 - 1, some .rangeErr)
  | .value un =>
    if !neg && decide (un ≥ 2 ^ 63) then (2 ^ 63 - 1, some .rangeErr)
    else if neg && decide (un > 2 ^ 63) then (-(2 ^ 63), some .rangeErr)
    else if neg then (-(un : Int), none) else ((un : Int), none)

/-- The Go function `strconv.Atoi` on a 64-bit platform (its fast path
agrees with `ParseInt(s, 10, 0)`): the value and the error, `none` for nil. -/
def Atoi (s : Str) : Int × Option NumError :=
  match s with
  | [] => (0, some .syntaxErr)
  | c :: cs => signUint (c = '-') (ParseUint (if c = '+' ∨ c = '-' then cs else c :: cs))

/-- The Go verb `%d` of `fmt.Sprintf` on an `int`. -/
def fmtInt (i : Int) : Str :=
  if i < 0 then '-' :: Nat.toDigits 10 i.natAbs else Nat.toDigits 10 i.natAbs

/-! ## Path resolver -/

/-- The root expression of `docPath`. -/
def bodyExpr : Str := "document.getElementsByTagName('body')[0]".toList

/-- One iteration of the segment loop of `Domino.docPath`. -/
def docPathStep (q el : Str) : Str :=
  if el = [] then q
  else
    match Atoi el with
    | (i, none) => q ++ ".children[".toList ++ fmtInt i ++ "]".toList
    | (_, some _) => q ++ ".".toList ++ el

/-- The Go function `Domino.docPath`: the expression and the error text
(`none` for a nil error). -/
def docPath (path : Str) : Str × Option Str :=
  if ! startsWith path "/0".toList then
    ([], some ("malformed path ".toList ++ path))
  else
    let path := trimStart path "/0".toList
    ((Split '/' path).foldl docPathStep bodyExpr, none)

/-- The Go function `Domino.Retrieve` up to its call of `Exec`: the
script it submits, or `none` when it returns the empty string at once. -/
def retrieveScript (path : Str) : Option Str :=
  let tmp := Split '/' path
  let path := Join "/".toList tmp.dropLast
  let k := tmp.getLastD []
  if ! startsWith path "/0".toList then none
  else
    match docPath path with
    | (_, some _) => none
    | (dp, none) => some (dp ++ ".".toList ++ k)

/-- The Go function `Domino.Write` up to its call of `Exec`: the script it
submits, or the error it returns at once. -/
def writeScript (path val : Str) : Except Str Str :=
  let tmp := Split '/' path
  let path := Join "/".toList tmp.dropLast
  let k := tmp.getLastD []
  if ! startsWith path "/0".toList then .error ("malformed path ".toList ++ path)
  else
    match docPath path with
    | (_, some e) => .error ("doc path ".toList ++ path ++ ": ".toList ++ e)
    | (dp, none) => .ok (dp ++ ".".toList ++ k ++ " = '".toList ++ val ++ "'".toList)

/-- The introspection script of `Domino.List` around the resolved expression. -/
def listScript (dp : Str) : Str :=
  "\n\t(function() \x7b\n\t\tlet items = [];\n\t\tlet q = ".toList ++ dp ++
  ";\n\t\tlet ks = getProperties(q);\n\t\tlet ms = getMethods(q);\n\t\tlet i;\n\t\tif (q.children) \x7b\n\t\t\tfor (i = 0; i < q.children.length; i++) \x7b\n\t\t\t\titems.push(i);\n\t\t\t\x7d\n\t\t\x7d\n\t\tfor (i = 0; i < ks.length; i++) \x7b\n\t\t\titems.push(ks[i]);\n\t\t\x7d\n\t\tfor (i = 0; i < ms.length; i++) \x7b\n\t\t\titems.push(ms[i] + '()');\n\t\t\x7d\n\t\treturn items;\n\t\x7d)()\n\t".toList

/-! ## Error diagnostics -/

/-- One call of `log.Printf` in `IntrospectError`, with its arguments. -/
inductive LogEntry where
  /-- The call `log.Printf("the line: %v", w)`. -/
  | theLine (w : Str)
  /-- The call `log.Printf("%v: %v", n, line)`. -/
  | numbered (n : Int) (line : Str)
deriving DecidableEq, Repr

/-- Go indexing `l[i]`: `none` stands for the run-time panic on an index out
of range. -/
def getAt {α : Type} (l : List α) (i : Int) : Option α :=
  if i < 0 then none else l[i.toNat]?

/-- Go slicing `s[lo:hi]`: `none` stands for the run-time panic on slice
bounds out of range. -/
def sliceAt (s : Str) (lo hi : Int) : Option Str :=
  if 0 ≤ lo ∧ lo ≤ hi ∧ hi ≤ (s.length : Int) then some ((s.take hi.toNat).drop lo.toNat)
  else none

/-- The Go function `IntrospectError` on the error text `err`: the log lines
it prints, or `none` when it panics. -/
def IntrospectError (err script : Str) : Option (List LogEntry) :=
  let i := Index "Line ".toList err
  if i > 0 then do
    let i := i + 5
    let s := err.drop i.toNat
    let yxStart := (Split ' ' s).headD []
    let yx := Split ':' yxStart
    let y := (Atoi (yx.headD [])).1
    let x ← (yx[1]?).map (fun t => (Atoi t).1)
    let lines := Split '\n' script
    let y := if wrapInt (y - 1) > (lines.length : Int) - 1 then (lines.length : Int) else y
    let wholeLine ← getAt lines (wrapInt (y - 1))
    if wholeLine.length > 100 then
      let lo := wrapInt (x - 50)
      let hi := wrapInt (x + 50)
      let lo := if lo < 0 then 0 else lo
      let hi := if hi ≥ (wholeLine.length : Int) then (wholeLine.length : Int) - 1 else hi
      let w ← sliceAt wholeLine lo hi
      pure [LogEntry.theLine w]
    else
      let e1 ← (if y > 0 then do
          let l ← getAt lines (wrapInt (y - 1))
          pure (if l.length < 120 then [LogEntry.numbered (wrapInt (y - 1)) l] else [])
        else pure [])
      let e2 ← (if y < (lines.length : Int) then do
          let l ← getAt lines y
          pure [LogEntry.numbered y l]
        else pure [])
      let e3 ← (if wrapInt (y + 1) < (lines.length : Int) then do
          let l ← getAt lines (wrapInt (y + 1))
          pure (if l.length < 120 then [LogEntry.numbered (wrapInt (y + 1)) l] else [])
        else pure [])
      pure (e1 ++ e2 ++ e3)
  else some []

/-! ## Execution coordinator -/

/-- The class `\s` of Go regular expressions: tab, newline, form feed,
carriage return, space. -/
def isSpace (c : Char) : Bool :=
  c = '\t' || c = '\n' || c = '\x0c' || c = '\r' || c = ' '

/-- The call `r.ReplaceAllString(script, "//")` for `^\s*<!--`: the
expression can only match at the start of the text, where `\s*` takes all the
leading white space. -/
def stripOpen (script : Str) : Str :=
  let rest := script.dropWhile isSpace
  if startsWith rest "<!--".toList then "//".toList ++ rest.drop 4 else script

/-- The call `rr.ReplaceAllString(script, "//")` for `-->\s*$`: the leftmost
position where `-->` is followed by white space only up to the end of the text
is replaced, with everything after it. -/
def stripClose : Str → Str
  | [] => []
  | c :: cs =>
    if startsWith (c :: cs) "-->".toList && ((c :: cs).drop 3).all isSpace then "//".toList
    else c :: stripClose cs

/-- The text `Exec` hands to the runtime (`SCRIPT` in the source). -/
def prepare (domIntf regenRt script : Str) (initial : Bool) : Str :=
  let script := stripClose (stripOpen script)
  if initial then domIntf ++ regenRt ++ script else script

/-- An HTTP request as built by `Domino.xhr`. -/
structure Request where
  method : Str
  uri : Str
  header : List (Str × Str)
  body : Str
deriving DecidableEq, Repr

/-- What the asynchronous part of `Domino.xhr` ends with. -/
inductive Fetched where
  /-- The provider `xhrq` returned an error. -/
  | providerErr (e : Str)
  /-- Reading the response body failed. -/
  | readErr (e : Str)
  /-- The response body was read. -/
  | body (bs : Str)
deriving DecidableEq, Repr

/-- What lies outside the repository: the embedded preludes, the script
runtime, the providers, the `6to5` command and two Unicode-aware library
functions.  The state `σ` is the state of the runtime and of the world
behind the providers. -/
structure Host (σ : Type) where
  /-- The embedded file `domintf.js`. -/
  domIntf : Str
  /-- The embedded file `regen-runtime.js`. -/
  regenRt : Str
  /-- The environment variable `GOJAFS_6TO5`. -/
  convert6to5 : Str
  /-- The call `vm.RunString(SCRIPT)` on the event loop, after the host
  object was registered when the flag is set, an interrupt after the timeout
  included: the text of the value (`none` for a nil value) or of the error. -/
  RunString : σ → Bool → Str → Except Str (Option Str) × σ
  /-- The error of `http.NewRequest`, `none` for nil. -/
  NewRequest : Str → Str → Str → Option Str
  /-- The provider `xhrq` followed by `ioutil.ReadAll` on the body. -/
  fetch : σ → Request → Fetched × σ
  /-- The external command `6to5` on its standard input. -/
  run6to5 : Str → Except Str Str
  /-- The Go function `strings.ToLower`. -/
  ToLower : Str → Str
  /-- The Go function `strings.TrimSpace`. -/
  TrimSpace : Str → Str

/-- The Go type `Domino`.  The field `submitted` is a ghost field: the
scripts passed to `Exec` so far, oldest first.  The channel `domChange` is
modelled on its two sides: `mutated` acts on the buffered content, and
`TrackChanges` takes the mutations its receive statement delivers. -/
structure Domino (σ : Type) where
  vm : σ
  html : Str
  outputHtml : Str
  submitted : List Str

/-- The Go function `Domino.Exec`: the result text and the error (`none`
for nil), or `none` when `IntrospectError` panics on the event loop. -/
def Exec {σ : Type} (h : Host σ) (d : Domino σ) (script : Str) (initial : Bool) :
    Option ((Str × Option Str) × Domino σ) :=
  let stripped := stripClose (stripOpen script)
  let SCRIPT := prepare h.domIntf h.regenRt script initial
  let (out, vm) := h.RunString d.vm initial SCRIPT
  let d := { d with vm := vm, submitted := d.submitted ++ [script] }
  match out with
  | .ok v => some ((v.getD [], none), d)
  | .error e =>
    match IntrospectError e stripped with
    | none => none
    | some _ => some (([], some ("event loop: run program: ".toList ++ e)), d)

/-- The Go function `Domino.Exec6`. -/
def Exec6 {σ : Type} (h : Host σ) (d : Domino σ) (script : Str) (initial : Bool) :
    Option ((Str × Option Str) × Domino σ) :=
  match h.run6to5 script with
  | .error e => some (([], some ("6to5: ".toList ++ e)), d)
  | .ok out => Exec h d out initial

/-- The Go function `Domino.Exec56`. -/
def Exec56 {σ : Type} (h : Host σ) (d : Domino σ) (script : Str) (initial : Bool) :
    Option ((Str × Option Str) × Domino σ) :=
  if h.convert6to5 ≠ [] then Exec6 h d script initial else Exec h d script initial

/-! ## Network bridge -/

/-- The first statements of `Domino.xhr`: the normalised URI. -/
def xhrURI (uri : Str) : Str :=
  let uri := trimStart uri ".".toList
  if ! startsWith uri "http".toList && ! startsWith uri "/".toList then "/".toList ++ uri
  else uri

/-- How `Domino.xhr` calls its callback `cb`, with the two arguments of the
call. -/
inductive CbCall where
  /-- The callback is called before `xhr` returns, on the goroutine of the
  caller: the `http.NewRequest` error path. -/
  | sync (data err : Str)
  /-- The callback is called from the goroutine `xhr` starts (provider or
  read error) or from the event loop (response read). -/
  | async (data err : Str)
deriving DecidableEq, Repr

/-- The Go function `Domino.xhr`: the call of the callback `cb` it leads to,
and the state afterwards. -/
def xhr {σ : Type} (h : Host σ) (vm : σ) (method uri : Str) (hdr : List (Str × Str))
    (data : Str) : CbCall × σ :=
  let uri := xhrURI uri
  match h.NewRequest method uri data with
  | some e => (.sync [] ("new http req: ".toList ++ e), vm)
  | none =>
    match h.fetch vm { method := method, uri := uri, header := hdr, body := data } with
    | (.providerErr e, vm) => (.async [] ("xhrq: ".toList ++ e), vm)
    | (.readErr e, vm) => (.async [] ("read all: ".toList ++ e), vm)
    | (.body bs, vm) => (.async bs [], vm)

/-! ## Mutation collector -/

/-- The Go type `Mutation`; the time is a clock reading, the map an
association list. -/
structure Mutation where
  Time : Nat
  Typ : Int
  Path : Str
  Tag : Str
  Node : List (Str × Str)
deriving DecidableEq, Repr

/-- Capacity of the channel `domChange`, as made by `NewDomino`. -/
def domChangeCap : Nat := 100

/-- The Go function `Domino.mutated` at clock reading `now`, on the buffered
content of `domChange` while nothing receives from it: the send succeeds when
the buffer has room, otherwise the default branch is taken. -/
def mutated (now : Nat) (domChange : List Mutation) (t : Int) (q tag : Str)
    (n : List (Str × Str)) : List Mutation :=
  let q := ReplaceFirst "undefined".toList [] q
  let m : Mutation := { Time := now, Typ := t, Path := q, Tag := tag, Node := n }
  if domChange.length < domChangeCap then domChange ++ [m] else domChange

/-! ## Change tracker and event trigger -/

/-- The text `s` of an inserted script element in the loop of
`Domino.TrackChanges`: the data sent on the unbuffered channel `ch` for a
`src` attribute, the `innerHTML` attribute otherwise.  The result is `none`
when the callback is called synchronously: its send on `ch` then runs on the
goroutine that would receive, and blocks forever. -/
def scriptText {σ : Type} (h : Host σ) (d : Domino σ) (m : Mutation) :
    Option (Str × Domino σ) :=
  match m.Node.lookup "src".toList with
  | some src =>
    match xhr h d.vm "GET".toList src [] [] with
    | (.sync _ _, _) => none
    | (.async data _, vm) => some (data, { d with vm := vm })
  | none =>
    match m.Node.lookup "innerHTML".toList with
    | some inner => some (inner, d)
    | none => some ([], d)

/-- The body of the receive branch of the loop of `Domino.TrackChanges`;
`none` when it does not return: the send on `ch` blocks forever, or an `Exec`
panics. -/
def trackStep {σ : Type} (h : Host σ) (d : Domino σ) (m : Mutation) : Option (Domino σ) :=
  if h.ToLower m.Tag = "script".toList then
    match scriptText h d m with
    | none => none
    | some (s, d) =>
      if h.TrimSpace s ≠ [] then
        match Exec56 h d s false with
        | none => none
        | some (_, d) => some d
      else some d
  else some d

/-- The loop of `Domino.TrackChanges` over the mutations `recvd` that the
receive branch delivers, in order, before the timer branch is taken; `none`
when it does not return. -/
def trackLoop {σ : Type} (h : Host σ) : List Mutation → Domino σ → Bool → Option (Domino σ × Bool)
  | [], d, changed => some (d, changed)
  | m :: rest, d, _ =>
    match trackStep h d m with
    | none => none
    | some d => trackLoop h rest d true

/-- The script of the final read of `Domino.TrackChanges`. -/
def finalRead : Str := "document.querySelector('html').innerHTML;".toList

/-- The Go function `Domino.TrackChanges`, given the mutations `recvd` it
receives from `domChange` before the one-second timer wins: html, changed and
the error (`none` for nil), or `none` when it does not return (the loop blocks
forever, or an `Exec` panics). -/
def TrackChanges {σ : Type} (h : Host σ) (recvd : List Mutation) (d : Domino σ) :
    Option ((Str × Bool × Option Str) × Domino σ) :=
  match trackLoop h recvd d false with
  | none => none
  | some (d, changed) =>
    if changed then
      match Exec h d finalRead false with
      | none => none
      | some ((html, some e), d) => some ((html, changed, some e), d)
      | some ((html, none), d) => some ((html, changed, none), { d with outputHtml := html })
    else some (([], changed, none), { d with outputHtml := [] })

/-- The click script of `Domino.TriggerClick`. -/
def clickScript (selector : Str) : Str :=
  "\n\t\tvar sel = '".toList ++ selector ++
  "';\n\t\tvar el = document.querySelector(sel);\n\t\tvar fn;\n\n\t\tconsole.log('gojafs: query ' + sel);\n\n\t\tif (!el) \x7b\n\t\t\tconsole.log('el is null/undefined');\n\t\t\tnull;\n\t\t\x7d else if (el._listeners && el._listeners.click && (fn = el.click.bind(el))) \x7b\n\t\t\tfn();\n\t\t\ttrue;\n\t\t\x7d else if (el._handlers && el._handlers.click && (fn = el.click.bind(el))) \x7b\n\t\t\tfn();\n\t\t\ttrue;\n\t\t\x7d else if (el.type === 'submit' || el.type === 'button') \x7b\n\t\t\tlet p;\n\t\t\tlet submitted = false;\n\t\t\tfor (p = el; p = p.parentElement; p != null) \x7b\n\t\t\t\tif (p.tagName && p.tagName === 'FORM') \x7b\n\t\t\t\t\tconst event = new Event('submit');\n\t\t\t\t\tevent.cancelable = true;\n\t\t\t\t\tif (p.onsubmit) p.onsubmit(event);\n\t\t\t\t\tif (!event.defaultPrevented) \x7b\n\t\t\t\t\t\tp.submit();\n\t\t\t\t\t\x7d\n\t\t\t\t\tsubmitted = true;\n\t\t\t\t\tbreak;\n\t\t\t\t\x7d\n\t\t\t\x7d\n\t\t\tsubmitted;\n\t\t\x7d else \x7b\n\t\t\tconsole.log('   no handler found');\n\t\t\tfalse;\n\t\t\x7d\n\t".toList

/-- The Go function `Domino.TriggerClick`, given the mutations `recvd` a
call of `TrackChanges` would receive; `none` when it does not return. -/
def TriggerClick {σ : Type} (h : Host σ) (recvd : List Mutation) (d : Domino σ)
    (selector : Str) : Option ((Str × Bool × Option Str) × Domino σ) :=
  match Exec h d (clickScript selector) false with
  | none => none
  | some ((res, err), d) =>
    if res = "true".toList then TrackChanges h recvd d
    else some (([], false, err), d)

/-- The Go function `Domino.Retrieve`. -/
def Retrieve {σ : Type} (h : Host σ) (d : Domino σ) (path : Str) : Option (Str × Domino σ) :=
  match retrieveScript path with
  | none => some ([], d)
  | some q =>
    match Exec h d q false with
    | none => none
    | some ((_, some _), d) => some ([], d)
    | some ((res, none), d) => some (res, d)

/-- The Go function `Domino.Write`: the error, `none` for nil. -/
def Write {σ : Type} (h : Host σ) (d : Domino σ) (path val : Str) :
    Option (Option Str × Domino σ) :=
  match writeScript path val with
  | .error e => some (some e, d)
  | .ok q =>
    match Exec h d q false with
    | none => none
    | some ((_, err), d) => some (err, d)

/-- The Go function `Domino.List`. -/
def ListNode {σ : Type} (h : Host σ) (d : Domino σ) (path : Str) :
    Option (List Str × Domino σ) :=
  match docPath path with
  | (_, some _) => some ([], d)
  | (dp, none) =>
    match Exec h d (listScript dp) false with
    | none => none
    | some ((_, some _), d) => some ([], d)
    | some ((res, none), d) => some (Split ',' res, d)

/-! ## Path segments, as the specification words them and as the code reads them -/

/-- The text is a non-empty string of decimal digits. -/
def isDecimal (ds : Str) : Bool :=
  !ds.isEmpty && ds.all (fun c => decide ('0' ≤ c ∧ c ≤ '9'))

/-- The number a string of decimal digits denotes, continuing from `n`. -/
def decimalFrom (n : Nat) (ds : Str) : Nat :=
  ds.foldl (fun n c => n * 10 + (c.toNat - 48)) n

/-- The number a string of decimal digits denotes. -/
def decimalValue (ds : Str) : Nat := decimalFrom 0 ds

/-- The integer a text denotes when it is a decimal integer: an optional
sign followed by decimal digits. -/
def signedDecimal (seg : Str) : Option Int :=
  match seg with
  | [] => none
  | c :: cs =>
    if c = '-' then (if isDecimal cs then some (-(decimalValue cs : Int)) else none)
    else if c = '+' then (if isDecimal cs then some (decimalValue cs : Int) else none)
    else if isDecimal (c :: cs) then some (decimalValue (c :: cs) : Int) else none

/-- What a path segment adds to the expression, as the code does it: nothing
for an empty segment, an indexed-child access for a decimal integer in the
range of a 64-bit `int`, a named-property access otherwise. -/
def segmentExpr (seg : Str) : Str :=
  if seg = [] then []
  else
    match signedDecimal seg with
    | some i =>
      if -(2 ^ 63 : Int) ≤ i ∧ i < 2 ^ 63 then ".children[".toList ++ fmtInt i ++ "]".toList
      else ".".toList ++ seg
    | none => ".".toList ++ seg

/-- What a path segment adds to the expression, in the words of the
specification: an indexed-child access when the segment is a non-negative
integer, a named-property access when it is any other token (an empty segment
is no token). -/
def specSegmentExpr (seg : Str) : Str :=
  if seg = [] then []
  else if isDecimal seg then ".children[".toList ++ fmtInt (decimalValue seg) ++ "]".toList
  else ".".toList ++ seg

/-- The expression of a path with remainder `rest` after the root marker, in
the words of the specification. -/
def specDocPath (rest : Str) : Str :=
  bodyExpr ++ ((Split '/' rest).map specSegmentExpr).flatten

/-! ## Script string literals -/

/-- Length in bytes of the ECMAScript line terminator sequence the text
starts with, 0 when it starts with none: CR LF, LF, CR, and the UTF-8 bytes of
LS (U+2028) and PS (U+2029). -/
def lineTerminatorLen (s : Str) : Nat :=
  if startsWith s ['\r', '\n'] then 2
  else if startsWith s ['\n'] || startsWith s ['\r'] then 1
  else if startsWith s ['\xe2', '\x80', '\xa8'] || startsWith s ['\xe2', '\x80', '\xa9'] then 3
  else 0

/-- The string value of the escape sequence made of a backslash and the byte
`c`, which starts no line terminator, in an ECMAScript string literal: the
single-character escapes and the characters that stand for themselves; `none`
for the numeric escapes (digits, `x`, `u`), which are left out of the model. -/
def jsEscape (c : Char) : Option Str :=
  if c = 'n' then some ['\n']
  else if c = 't' then some ['\t']
  else if c = 'r' then some ['\r']
  else if c = 'b' then some ['\x08']
  else if c = 'f' then some ['\x0c']
  else if c = 'v' then some ['\x0b']
  else if c.isDigit || c = 'x' || c = 'u' then none
  else some [c]

/-- Where the reader of a string literal stands. -/
inductive LitState where
  /-- After an ordinary character. -/
  | plain
  /-- After an unescaped backslash. -/
  | escaped
  /-- Inside a line continuation, with this many of its bytes still to pass. -/
  | skip (n : Nat)
deriving DecidableEq, Repr

/-- Reads an ECMAScript 5.1 single-quoted string literal from after its
opening quote: the string value and the text after the closing quote, `none`
when the literal is not closed, is broken by a line terminator or has a
numeric escape. -/
def readSingleQuoted : LitState → Str → Option (Str × Str)
  | _, [] => none
  | .skip n, _ :: rest =>
    if n ≤ 1 then readSingleQuoted .plain rest else readSingleQuoted (.skip (n - 1)) rest
  | .escaped, c :: rest =>
    if lineTerminatorLen (c :: rest) = 0 then
      (jsEscape c).bind (fun v => (readSingleQuoted .plain rest).map (fun r => (v ++ r.1, r.2)))
    else if lineTerminatorLen (c :: rest) = 1 then readSingleQuoted .plain rest
    else readSingleQuoted (.skip (lineTerminatorLen (c :: rest) - 1)) rest
  | .plain, c :: rest =>
    if c = '\'' then some ([], rest)
    else if c = '\\' then readSingleQuoted .escaped rest
    else if lineTerminatorLen (c :: rest) ≠ 0 then none
    else (readSingleQuoted .plain rest).map (fun r => (c :: r.1, r.2))

/-- The string value of `text` when `text` is exactly one ECMAScript
single-quoted string literal, `none` otherwise. -/
def jsStringLiteralValue (text : Str) : Option Str :=
  match text with
  | [] => none
  | c :: rest =>
    if c = '\'' then
      match readSingleQuoted .plain rest with
      | some (v, []) => some v
      | _ => none
    else none

/-! ## Sequences of calls, comment wrappers, failed conversions -/

/-- The arguments of one call of `Domino.mutated` and the clock reading at
the call. -/
structure MutatedCall where
  now : Nat
  t : Int
  q : Str
  tag : Str
  n : List (Str × Str)
deriving DecidableEq, Repr

/-- The mutation a call of `Domino.mutated` builds. -/
def MutatedCall.mutation (c : MutatedCall) : Mutation :=
  { Time := c.now, Typ := c.t, Path := ReplaceFirst "undefined".toList [] c.q, Tag := c.tag,
    Node := c.n }

/-- A sequence of calls of `Domino.mutated` with no receive in between. -/
def mutatedAll (calls : List MutatedCall) (domChange : List Mutation) : List Mutation :=
  calls.foldl (fun buf c => mutated c.now buf c.t c.q c.tag c.n) domChange

/-- The script starts with optional white space followed by "<!--". -/
def opensComment (script : Str) : Prop :=
  ∃ ws rest : Str, ws.all isSpace = true ∧ script = ws ++ "<!--".toList ++ rest

/-- The script ends with "-->" followed by optional white space. -/
def closesComment (script : Str) : Prop :=
  ∃ pre ws : Str, ws.all isSpace = true ∧ script = pre ++ "-->".toList ++ ws

/-- The error results of `Atoi`. -/
def atoiFails (seg : Str) : Prop := ∃ v e, Atoi seg = (v, some e)

/-! ## Concrete hosts, for evaluating the definitions -/

/-- ASCII version of `strings.TrimSpace`. -/
def trimSpaceAscii (s : Str) : Str :=
  ((s.dropWhile isSpace).reverse.dropWhile isSpace).reverse

/-- A host whose runtime answers every script with `out`, in a world with no
state, no `6to5` conversion and empty responses. -/
def fixedHost (out : Except Str (Option Str)) : Host Unit :=
  { domIntf := [], regenRt := [], convert6to5 := [],
    RunString := fun _ _ _ => (out, ()),
    NewRequest := fun _ _ _ => none,
    fetch := fun _ _ => (Fetched.body [], ()),
    run6to5 := fun s => .ok s,
    ToLower := fun s => s.map Char.toLower,
    TrimSpace := trimSpaceAscii }

/-- A fresh session, as `NewDomino` makes it, without seed markup. -/
def freshDomino : Domino Unit :=
  { vm := (), html := [], outputHtml := [], submitted := [] }

/-- The host raises no script error on which `IntrospectError` panics. -/
def Host.diagnosable {σ : Type} (h : Host σ) : Prop :=
  ∀ (vm : σ) (initial : Bool) (script e : Str),
    (h.RunString vm initial (prepare h.domIntf h.regenRt script initial)).1 = .error e →
    (IntrospectError e (stripClose (stripOpen script))).isSome = true

/-- Every source location of a script element among the received mutations
makes a request that `http.NewRequest` accepts. -/
def Host.requestable {σ : Type} (h : Host σ) (recvd : List Mutation) : Prop :=
  ∀ m ∈ recvd, h.ToLower m.Tag = "script".toList →
    ∀ src, m.Node.lookup "src".toList = some src →
      h.NewRequest "GET".toList (xhrURI src) [] = none

/-- What the final read of `TrackChanges` returns and leaves, from the answer
of the runtime to the script that reads the root element's content. -/
def finalOutcome {σ : Type} (h : Host σ) (d1 : Domino σ) (r : Str × Bool × Option Str)
    (d3 : Domino σ) : Prop :=
  d3.vm = (h.RunString d1.vm false "document.querySelector('html').innerHTML;".toList).2 ∧
  d3.html = d1.html ∧
  d3.submitted = d1.submitted ++ ["document.querySelector('html').innerHTML;".toList] ∧
  match (h.RunString d1.vm false "document.querySelector('html').innerHTML;".toList).1 with
  | .ok v => r = (v.getD [], true, none) ∧ d3.outputHtml = v.getD []
  | .error e =>
    r = ([], true, some ("event loop: run program: ".toList ++ e)) ∧
    d3.outputHtml = d1.outputHtml

/-- A host as `fixedHost` on which `http.NewRequest` rejects the URI "/%zz",
whose escape is invalid. -/
def rejectingHost (out : Except Str (Option Str)) : Host Unit :=
  { fixedHost out with
    NewRequest := fun _ uri _ =>
      if uri = "/%zz".toList then some "parse \"/%zz\": invalid URL escape \"%zz\"".toList
      else none }

/-! ## Lemmas on the library functions -/

theorem startsWith_iff (s p : Str) : startsWith s p = true ↔ p <+: s := by
  unfold startsWith
  exact List.isPrefixOf_iff_prefix

theorem startsWith_of_pfx {a b p : Str} (hab : a <+: b) (hp : startsWith a p = true) :
    startsWith b p = true := by
  rw [startsWith_iff] at hp ⊢
  exact hp.trans hab

theorem Split_ne_nil (sep : Char) (s : Str) : Split sep s ≠ [] := by
  cases s with
  | nil => simp [Split]
  | cons c cs =>
    unfold Split
    split
    · simp
    · split <;> simp

theorem Join_dropLast_pfx (sep : Str) (l : List Str) : Join sep l.dropLast <+: Join sep l := by
  induction l with
  | nil => simp [Join]
  | cons x rest ih =>
    cases rest with
    | nil => simp [Join]
    | cons y rest2 =>
      cases rest2 with
      | nil => simp [Join, List.dropLast]
      | cons z rest3 =>
        simp only [List.dropLast, Join] at ih ⊢
        simp only [List.append_assoc] at ih ⊢
        exact (List.prefix_append_right_inj _).2 ((List.prefix_append_right_inj _).2 ih)

theorem Join_Split (sep : Char) (s : Str) : Join [sep] (Split sep s) = s := by
  induction s with
  | nil => simp [Split, Join]
  | cons c cs ih =>
    unfold Split
    split
    · rename_i hc
      have hne := Split_ne_nil sep cs
      cases hs : Split sep cs with
      | nil => exact absurd hs hne
      | cons a as =>
        rw [hs] at ih
        simp [Join, ih, hc]
    · cases hs : Split sep cs with
      | nil => exact absurd hs (Split_ne_nil sep cs)
      | cons a as =>
        rw [hs] at ih
        simp only
        cases as with
        | nil => simp [Join] at ih ⊢; exact ih
        | cons b bs => simp [Join] at ih ⊢; exact ih

theorem parent_pfx (path : Str) : Join "/".toList (Split '/' path).dropLast <+: path := by
  have h := Join_dropLast_pfx "/".toList (Split '/' path)
  have h2 : Join "/".toList (Split '/' path) = path := Join_Split '/' path
  rw [h2] at h
  exact h

/-! ## Network bridge: URI normalisation -/

theorem xhrURI_rooted (u : Str) :
    startsWith (xhrURI u) "http".toList = true ∨ startsWith (xhrURI u) "/".toList = true := by
  simp only [xhrURI]
  generalize trimStart u ".".toList = t
  cases h1 : startsWith t "http".toList <;> cases h2 : startsWith t "/".toList <;>
    simp [startsWith] at h1 h2 ⊢ <;> tauto

theorem xhrURI_fixed (u : Str)
    (hu : startsWith u "http".toList = true ∨ startsWith u "/".toList = true) : xhrURI u = u := by
  have ht : trimStart u ".".toList = u := by
    unfold trimStart
    rcases u with _ | ⟨c, cs⟩
    · simp [startsWith]
    · have hc : c ≠ '.' := by
        rcases hu with hu | hu
        · simp [startsWith, List.isPrefixOf] at hu
          rw [← hu.1]; decide
        · simp [startsWith, List.isPrefixOf] at hu
          rw [← hu]; decide
      have hs : startsWith (c :: cs) ".".toList = false := by
        simp [startsWith, List.isPrefixOf]
        exact fun h => hc h.symm
      rw [hs]
      rfl
  simp only [xhrURI, ht]
  rcases hu with hu | hu
  · rw [hu]; rfl
  · rw [hu]
    cases startsWith u "http".toList <;> rfl

theorem xhrURI_dot (t : Str) :
    xhrURI ('.' :: t) =
      if startsWith t "http".toList || startsWith t "/".toList then t else '/' :: t := by
  have ht : trimStart ('.' :: t) ".".toList = t := by
    simp [trimStart, startsWith]
  simp only [xhrURI, ht]
  cases startsWith t "http".toList <;> cases startsWith t "/".toList <;> rfl

theorem xhrURI_relative (u : Str) (hd : startsWith u ".".toList = false)
    (hh : startsWith u "http".toList = false) (hs : startsWith u "/".toList = false) :
    xhrURI u = '/' :: u := by
  have ht : trimStart u ".".toList = u := by
    unfold trimStart
    rw [hd]
    rfl
  simp only [xhrURI, ht, hh, hs]
  rfl

/-- C8: the URI normalisation of `Domino.xhr` drops one leading "." and then
puts "/" before a URI that begins neither with "http" nor with "/": a URI
"." ++ t becomes t when t begins with "http" or "/" and "/" ++ t otherwise, so
"./" ++ t becomes "/" ++ t; a URI with no leading ".", "http" or "/" gets "/"
in front; a URI that begins with "http" or "/" is left unchanged.  Hence the
result always begins with "http" or "/", the normalisation is idempotent, and
"./a.js" and "a.js" become "/a.js". -/
theorem xhrURI_normalises (u : Str) :
    (startsWith (xhrURI u) "http".toList = true ∨ startsWith (xhrURI u) "/".toList = true) ∧
    ((startsWith u "http".toList = true ∨ startsWith u "/".toList = true) → xhrURI u = u) ∧
    xhrURI (xhrURI u) = xhrURI u ∧
    (∀ t : Str, xhrURI ('.' :: t) =
      if startsWith t "http".toList || startsWith t "/".toList then t else '/' :: t) ∧
    (∀ t : Str, xhrURI ('.' :: '/' :: t) = '/' :: t) ∧
    (startsWith u ".".toList = false → startsWith u "http".toList = false →
      startsWith u "/".toList = false → xhrURI u = '/' :: u) ∧
    xhrURI "./a.js".toList = "/a.js".toList ∧
    xhrURI "a.js".toList = "/a.js".toList := by
  refine ⟨xhrURI_rooted u, xhrURI_fixed u, xhrURI_fixed _ (xhrURI_rooted u), xhrURI_dot, ?_,
    xhrURI_relative u, by decide, by decide⟩
  intro t
  rw [xhrURI_dot]
  have : startsWith ('/' :: t) "/".toList = true := by simp [startsWith]
  rw [this, Bool.or_true]
  rfl

/-- Witness of C8 at the relative URI "b/c.js", which gets "/" in front, and
at the rooted URI "/a.js", which stays. -/
theorem xhrURI_normalises_witness :
    xhrURI "b/c.js".toList = "/b/c.js".toList ∧
    xhrURI "/a.js".toList = "/a.js".toList :=
  ⟨(xhrURI_normalises "b/c.js".toList).2.2.2.2.2.1 (by decide) (by decide) (by decide),
   (xhrURI_normalises "/a.js".toList).2.1 (Or.inr (by decide))⟩

/-! ## Mutation collector: bounded, drop-newest -/

theorem mutatedAll_eq (calls : List MutatedCall) (buf : List Mutation)
    (hb : buf.length ≤ domChangeCap) :
    mutatedAll calls buf = (buf ++ calls.map MutatedCall.mutation).take domChangeCap := by
  induction calls generalizing buf with
  | nil =>
    simp only [mutatedAll, List.foldl_nil, List.map_nil, List.append_nil]
    exact (List.take_of_length_le hb).symm
  | cons c rest ih =>
    have hstep : mutatedAll (c :: rest) buf = mutatedAll rest (mutated c.now buf c.t c.q c.tag c.n) := rfl
    rw [hstep]
    by_cases hlt : buf.length < domChangeCap
    · have hm : mutated c.now buf c.t c.q c.tag c.n = buf ++ [c.mutation] := by
        simp [mutated, hlt, MutatedCall.mutation]
      rw [hm, ih (buf ++ [c.mutation]) (by simp; omega)]
      simp
    · have hm : mutated c.now buf c.t c.q c.tag c.n = buf := by
        simp [mutated, hlt]
      have hlen : buf.length = domChangeCap := by omega
      rw [hm, ih buf hb]
      rw [List.take_append_of_le_length (by omega), List.take_append_of_le_length (by omega)]

/-- C3: starting from an empty queue, after any sequence of calls of
`mutated` with no drain the queue holds exactly the first min(n, 100)
mutations in arrival order; its length never exceeds 100, and a call made
when 100 are queued leaves the queue as it is. -/
theorem mutated_bounded_drop_newest (calls : List MutatedCall) :
    mutatedAll calls [] = (calls.map MutatedCall.mutation).take (min calls.length 100) ∧
    (mutatedAll calls []).length = min calls.length 100 ∧
    (mutatedAll calls []).length ≤ 100 ∧
    ∀ c : MutatedCall, 100 ≤ calls.length →
      mutatedAll (calls ++ [c]) [] = mutatedAll calls [] := by
  have hcap : domChangeCap = 100 := rfl
  have h := mutatedAll_eq calls [] (by simp)
  rw [List.nil_append, hcap] at h
  have hmin : (calls.map MutatedCall.mutation).take (min calls.length 100)
      = (calls.map MutatedCall.mutation).take 100 := by
    rcases Nat.le_total calls.length 100 with hle | hle
    · rw [Nat.min_eq_left hle, List.take_of_length_le (by simp),
        List.take_of_length_le (by simpa using hle)]
    · rw [Nat.min_eq_right hle]
  refine ⟨by rw [h, hmin], ?_, ?_, ?_⟩
  · rw [h]; simp [Nat.min_comm]
  · rw [h]; simp
  · intro c hc
    have h2 := mutatedAll_eq (calls ++ [c]) [] (by simp)
    rw [List.nil_append, hcap] at h2
    rw [h, h2, List.map_append, List.take_append_of_le_length (by simpa using hc)]

/-- Witness of C3 at 100 queued mutations and one more call. -/
theorem mutated_bounded_drop_newest_witness :
    100 ≤ (List.replicate 100 (MutatedCall.mk 0 6 "/0/1".toList "P".toList [])).length ∧
    mutatedAll (List.replicate 100 (MutatedCall.mk 0 6 "/0/1".toList "P".toList []) ++
        [MutatedCall.mk 1 4 "/0/2".toList "P".toList []]) [] =
      mutatedAll (List.replicate 100 (MutatedCall.mk 0 6 "/0/1".toList "P".toList [])) [] :=
  ⟨by simp,
   (mutated_bounded_drop_newest
      (List.replicate 100 (MutatedCall.mk 0 6 "/0/1".toList "P".toList []))).2.2.2
      (MutatedCall.mk 1 4 "/0/2".toList "P".toList []) (by simp)⟩

/-! ## Path resolver: the root marker -/

/-- C2: a path that does not begin with "/0" is rejected before any script
runs: `docPath` returns an error and no expression, `Retrieve` the empty
string, `Write` an error, `List` the empty list, and the session, its record
of submitted scripts included, is left as it was. -/
theorem rootless_path_rejected {σ : Type} (h : Host σ) (d : Domino σ) (path val : Str)
    (hp : startsWith path "/0".toList = false) :
    docPath path = ([], some ("malformed path ".toList ++ path)) ∧
    Retrieve h d path = some ([], d) ∧
    (∃ e, Write h d path val = some (some e, d)) ∧
    ListNode h d path = some ([], d) := by
  have hdoc : docPath path = ([], some ("malformed path ".toList ++ path)) := by
    unfold docPath
    rw [hp]
    rfl
  have hparent : startsWith (Join "/".toList (Split '/' path).dropLast) "/0".toList = false := by
    cases hq : startsWith (Join "/".toList (Split '/' path).dropLast) "/0".toList with
    | false => rfl
    | true =>
      have := startsWith_of_pfx (parent_pfx path) hq
      rw [hp] at this
      exact absurd this (by simp)
  refine ⟨hdoc, ?_, ?_, ?_⟩
  · simp only [Retrieve, retrieveScript, hparent]
    rfl
  · refine ⟨"malformed path ".toList ++ Join "/".toList (Split '/' path).dropLast, ?_⟩
    simp only [Write, writeScript, hparent]
    rfl
  · simp only [ListNode, hdoc]

/-- Witness of C2 at the path "/1/x". -/
theorem rootless_path_rejected_witness :
    startsWith "/1/x".toList "/0".toList = false ∧
    Retrieve (fixedHost (.ok none)) freshDomino "/1/x".toList = some ([], freshDomino) :=
  ⟨by decide,
   (rootless_path_rejected (fixedHost (.ok none)) freshDomino "/1/x".toList [] (by decide)).2.1⟩

/-! ## Change tracker -/

theorem Exec_submitted {σ : Type} (h : Host σ) (d d1 : Domino σ) (script : Str) (initial : Bool)
    (r : Str × Option Str) (he : Exec h d script initial = some (r, d1)) :
    d1.submitted = d.submitted ++ [script] := by
  unfold Exec at he
  simp only at he
  split at he
  · simp only [Option.some.injEq, Prod.mk.injEq] at he
    rw [← he.2]
  · split at he
    · exact absurd he (by simp)
    · simp only [Option.some.injEq, Prod.mk.injEq] at he
      rw [← he.2]

theorem Exec_isSome {σ : Type} (h : Host σ) (hs : h.diagnosable) (d : Domino σ) (script : Str)
    (initial : Bool) : (Exec h d script initial).isSome = true := by
  unfold Exec
  simp only
  split
  · rfl
  · rename_i e he
    have := hs d.vm initial script e he
    split
    · rename_i hn
      rw [hn] at this
      exact absurd this (by simp)
    · rfl

theorem Exec56_isSome {σ : Type} (h : Host σ) (hs : h.diagnosable) (d : Domino σ) (script : Str)
    (initial : Bool) : (Exec56 h d script initial).isSome = true := by
  unfold Exec56 Exec6
  split
  · split
    · rfl
    · exact Exec_isSome h hs d _ initial
  · exact Exec_isSome h hs d _ initial

theorem scriptText_isSome {σ : Type} (h : Host σ) (d : Domino σ) (m : Mutation)
    (hr : ∀ src, m.Node.lookup "src".toList = some src →
      h.NewRequest "GET".toList (xhrURI src) [] = none) :
    (scriptText h d m).isSome = true := by
  unfold scriptText
  split
  · rename_i src hsrc
    have hn := hr src hsrc
    simp only [xhr, hn]
    split
    · rename_i heq
      split at heq <;> simp at heq
    · rfl
  · split <;> rfl

/-- The loop of `TrackChanges` never returns when `http.NewRequest` rejects
the source location of an inserted script element. -/
theorem trackStep_blocks {σ : Type} (h : Host σ) (d : Domino σ) (m : Mutation) (src e : Str)
    (htag : h.ToLower m.Tag = "script".toList) (hsrc : m.Node.lookup "src".toList = some src)
    (hreq : h.NewRequest "GET".toList (xhrURI src) [] = some e) :
    trackStep h d m = none := by
  have hs : scriptText h d m = none := by
    simp only [scriptText, hsrc, xhr, hreq]
  simp only [trackStep, htag, hs, if_true]

theorem trackStep_isSome {σ : Type} (h : Host σ) (hs : h.diagnosable) (d : Domino σ)
    (m : Mutation)
    (hr : h.ToLower m.Tag = "script".toList → ∀ src, m.Node.lookup "src".toList = some src →
      h.NewRequest "GET".toList (xhrURI src) [] = none) :
    (trackStep h d m).isSome = true := by
  unfold trackStep
  split
  · rename_i htag
    have ht := scriptText_isSome h d m (hr htag)
    split
    · rename_i hn
      rw [hn] at ht
      exact absurd ht (by simp)
    · split
      · split
        · rename_i hn
          have h2 := congrArg Option.isSome hn
          rw [Exec56_isSome h hs] at h2
          exact absurd h2 (by simp)
        · rfl
      · rfl
  · rfl

theorem trackLoop_isSome {σ : Type} (h : Host σ) (hs : h.diagnosable) (recvd : List Mutation)
    (hr : h.requestable recvd) (d : Domino σ) (c : Bool) :
    (trackLoop h recvd d c).isSome = true := by
  induction recvd generalizing d c with
  | nil => rfl
  | cons m rest ih =>
    unfold trackLoop
    have := trackStep_isSome h hs d m (hr m (by simp))
    split
    · rename_i hn
      rw [hn] at this
      exact absurd this (by simp)
    · exact ih (fun x hx => hr x (by simp [hx])) _ _

theorem trackLoop_flag {σ : Type} (h : Host σ) (recvd : List Mutation) (d d1 : Domino σ)
    (c c1 : Bool) (hl : trackLoop h recvd d c = some (d1, c1)) :
    c1 = (c || !recvd.isEmpty) := by
  induction recvd generalizing d c with
  | nil =>
    simp only [trackLoop, Option.some.injEq, Prod.mk.injEq] at hl
    simp [hl.2]
  | cons m rest ih =>
    unfold trackLoop at hl
    split at hl
    · exact absurd hl (by simp)
    · have := ih _ _ hl
      simp [this]

theorem trackLoop_plain {σ : Type} (h : Host σ) (recvd : List Mutation) (d : Domino σ)
    (c : Bool) (hn : ∀ m ∈ recvd, h.ToLower m.Tag ≠ "script".toList) :
    trackLoop h recvd d c = some (d, c || !recvd.isEmpty) := by
  induction recvd generalizing c with
  | nil => simp [trackLoop]
  | cons m rest ih =>
    have hm : trackStep h d m = some d := by
      unfold trackStep
      rw [if_neg (hn m (by simp))]
    unfold trackLoop
    rw [hm]
    simp only
    rw [ih true (fun x hx => hn x (by simp [hx]))]
    simp

theorem TrackChanges_nil {σ : Type} (h : Host σ) (d : Domino σ) :
    TrackChanges h [] d = some (([], false, none), { d with outputHtml := [] }) := rfl

theorem TrackChanges_flag {σ : Type} (h : Host σ) (recvd : List Mutation) (d d1 : Domino σ)
    (r : Str × Bool × Option Str) (ht : TrackChanges h recvd d = some (r, d1)) :
    (r.2.1 = true ↔ recvd ≠ []) := by
  unfold TrackChanges at ht
  split at ht
  · exact absurd ht (by simp)
  · rename_i d2 changed hl
    have hc := trackLoop_flag h recvd d d2 false changed hl
    have hch : changed = true ↔ recvd ≠ [] := by
      rw [hc]
      cases recvd <;> simp
    split at ht
    · rename_i hct
      split at ht
      · exact absurd ht (by simp)
      · simp only [Option.some.injEq, Prod.mk.injEq] at ht
        rw [← ht.1]
        exact hch
      · simp only [Option.some.injEq, Prod.mk.injEq] at ht
        rw [← ht.1]
        exact hch
    · simp only [Option.some.injEq, Prod.mk.injEq] at ht
      rw [← ht.1]
      exact hch

theorem Exec_finalRead {σ : Type} (h : Host σ) (d1 d2 : Domino σ) (html : Str)
    (err : Option Str) (he : Exec h d1 finalRead false = some ((html, err), d2)) :
    finalOutcome h d1 (html, true, err)
      (match err with
       | none => { d2 with outputHtml := html }
       | some _ => d2) := by
  have hp : prepare h.domIntf h.regenRt finalRead false
      = "document.querySelector('html').innerHTML;".toList := by rfl
  have hf : finalRead = "document.querySelector('html').innerHTML;".toList := rfl
  unfold Exec at he
  simp only [hp] at he
  rw [hf] at he
  unfold finalOutcome
  split at he
  · rename_i v hv
    simp only [Option.some.injEq, Prod.mk.injEq] at he
    obtain ⟨⟨h1, h2⟩, h3⟩ := he
    subst h2
    subst h3
    subst h1
    rw [hv]
    exact ⟨rfl, rfl, rfl, rfl, rfl⟩
  · rename_i e hv
    split at he
    · exact absurd he (by simp)
    · simp only [Option.some.injEq, Prod.mk.injEq] at he
      obtain ⟨⟨h1, h2⟩, h3⟩ := he
      subst h2
      subst h3
      subst h1
      rw [hv]
      exact ⟨rfl, rfl, rfl, rfl, rfl⟩

theorem TrackChanges_read {σ : Type} (h : Host σ) (recvd : List Mutation) (d d3 : Domino σ)
    (r : Str × Bool × Option Str) (hne : recvd ≠ [])
    (ht : TrackChanges h recvd d = some (r, d3)) :
    ∃ d1, trackLoop h recvd d false = some (d1, true) ∧ finalOutcome h d1 r d3 := by
  unfold TrackChanges at ht
  split at ht
  · exact absurd ht (by simp)
  · rename_i d1 changed hl
    have hc := trackLoop_flag h recvd d d1 false changed hl
    have hch : changed = true := by
      rw [hc]
      cases recvd with
      | nil => exact absurd rfl hne
      | cons _ _ => rfl
    subst hch
    refine ⟨d1, hl, ?_⟩
    simp only [if_true] at ht
    split at ht
    · exact absurd ht (by simp)
    · rename_i html e d2 he
      simp only [Option.some.injEq, Prod.mk.injEq] at ht
      rw [← ht.1, ← ht.2]
      exact Exec_finalRead h d1 d2 html (some e) he
    · rename_i html d2 he
      simp only [Option.some.injEq, Prod.mk.injEq] at ht
      rw [← ht.1, ← ht.2]
      exact Exec_finalRead h d1 d2 html none he

theorem TrackChanges_isSome {σ : Type} (h : Host σ) (hs : h.diagnosable)
    (recvd : List Mutation) (hr : h.requestable recvd) (d : Domino σ) :
    (TrackChanges h recvd d).isSome = true := by
  unfold TrackChanges
  have hl := trackLoop_isSome h hs recvd hr d false
  split
  · rename_i hn
    rw [hn] at hl
    exact absurd hl (by simp)
  · split
    · split
      · rename_i hn
        have h2 := congrArg Option.isSome hn
        rw [Exec_isSome h hs] at h2
        exact absurd h2 (by simp)
      · rfl
      · rfl
    · rfl

/-- C4: `TrackChanges` reports changed=true exactly when at least one mutation
was received before the timer elapsed.  With nothing received it returns empty
html, changed=false and a nil error and leaves the runtime and the record of
submitted scripts untouched.  When something was received and it returns, it
has submitted, after the drain, the one script
document.querySelector('html').innerHTML; and returns the text or the error the
runtime answers to it; when no received mutation is a script element the drain
submits nothing, so this read is the only script.  It returns whenever no
script error makes the diagnostic panic and every source location of a
received script element makes an acceptable request. -/
theorem TrackChanges_reports {σ : Type} (h : Host σ) (recvd : List Mutation) (d : Domino σ) :
    (recvd = [] →
      TrackChanges h recvd d = some (([], false, none), { d with outputHtml := [] })) ∧
    (∀ r d3, TrackChanges h recvd d = some (r, d3) → (r.2.1 = true ↔ recvd ≠ [])) ∧
    (∀ r d3, recvd ≠ [] → TrackChanges h recvd d = some (r, d3) →
      ∃ d1, trackLoop h recvd d false = some (d1, true) ∧ finalOutcome h d1 r d3) ∧
    ((∀ m ∈ recvd, h.ToLower m.Tag ≠ "script".toList) → recvd ≠ [] →
      ∀ r d3, TrackChanges h recvd d = some (r, d3) → finalOutcome h d r d3) ∧
    (h.diagnosable → h.requestable recvd → (TrackChanges h recvd d).isSome = true) := by
  refine ⟨?_, ?_, ?_, ?_, ?_⟩
  · intro hr
    subst hr
    exact TrackChanges_nil h d
  · intro r d3 ht
    exact TrackChanges_flag h recvd d d3 r ht
  · intro r d3 hne ht
    exact TrackChanges_read h recvd d d3 r hne ht
  · intro hn hne r d3 ht
    obtain ⟨d1, hl, hf⟩ := TrackChanges_read h recvd d d3 r hne ht
    rw [trackLoop_plain h recvd d false hn] at hl
    simp only [Option.some.injEq, Prod.mk.injEq] at hl
    rw [hl.1]
    exact hf
  · intro hs hr
    exact TrackChanges_isSome h hs recvd hr d

/-- Witness of C4: nothing received on a fresh session, and one inserted
paragraph received on a host that answers every script with "<p>". -/
theorem TrackChanges_reports_witness :
    TrackChanges (fixedHost (.ok (some "<p>".toList))) [] freshDomino
      = some (([], false, none), { freshDomino with outputHtml := [] }) ∧
    finalOutcome (fixedHost (.ok (some "<p>".toList))) freshDomino ("<p>".toList, true, none)
      { vm := (), html := [], outputHtml := "<p>".toList,
        submitted := ["document.querySelector('html').innerHTML;".toList] } :=
  ⟨(TrackChanges_reports (fixedHost (.ok (some "<p>".toList))) [] freshDomino).1 rfl,
   (TrackChanges_reports (fixedHost (.ok (some "<p>".toList)))
      [Mutation.mk 0 6 "/0/1".toList "P".toList []] freshDomino).2.2.2.1
      (by decide) (by simp) _ _ rfl⟩

/-- An inserted script element whose source location `http.NewRequest`
rejects: `TrackChanges` does not return. -/
theorem TrackChanges_blocks_on_rejected_request :
    TrackChanges (rejectingHost (.ok none))
      [Mutation.mk 0 6 "/0/1".toList "SCRIPT".toList [("src".toList, "%zz".toList)]]
      freshDomino = none := by
  rfl

/-! ## Event trigger -/

/-- C5 as stated fails: on a host whose click script evaluates to "true"
while no mutation is received afterwards, `TriggerClick` reports false. -/
theorem TriggerClick_acted_counterexample :
    (Exec (fixedHost (.ok (some "true".toList))) freshDomino (clickScript "a".toList) false).map
        (fun r => r.1) = some ("true".toList, none) ∧
    (TriggerClick (fixedHost (.ok (some "true".toList))) [] freshDomino "a".toList).map
        (fun r => r.1) = some ([], false, none) := by
  constructor <;> rfl

/-- C5, amended: when the click script's result text is "true", `TriggerClick`
invokes the Change Tracker and returns exactly what it returns, so the flag is
the tracker's changed flag; on any other result, an evaluation error included,
the tracker is not invoked and the result is empty html, false and the error
of the evaluation.  The flag is true exactly when the result is "true" and at
least one mutation was received. -/
theorem TriggerClick_flag {σ : Type} (h : Host σ) (recvd : List Mutation) (d d1 : Domino σ)
    (selector res : Str) (err : Option Str)
    (he : Exec h d (clickScript selector) false = some ((res, err), d1)) :
    (res = "true".toList → TriggerClick h recvd d selector = TrackChanges h recvd d1) ∧
    (res ≠ "true".toList → TriggerClick h recvd d selector = some (([], false, err), d1)) ∧
    (∀ r d2, TriggerClick h recvd d selector = some (r, d2) →
      (r.2.1 = true ↔ (res = "true".toList ∧ recvd ≠ []))) := by
  have hdef : TriggerClick h recvd d selector =
      if res = "true".toList then TrackChanges h recvd d1 else some (([], false, err), d1) := by
    unfold TriggerClick
    rw [he]
  refine ⟨?_, ?_, ?_⟩
  · intro hr
    rw [hdef, if_pos hr]
  · intro hr
    rw [hdef, if_neg hr]
  · intro r d2 ht
    rw [hdef] at ht
    by_cases hr : res = "true".toList
    · rw [if_pos hr] at ht
      have := TrackChanges_flag h recvd d1 d2 r ht
      rw [this]
      exact ⟨fun hne => ⟨hr, hne⟩, fun hh => hh.2⟩
    · rw [if_neg hr] at ht
      simp only [Option.some.injEq, Prod.mk.injEq] at ht
      rw [← ht.1]
      constructor
      · intro hf
        exact absurd hf (by simp)
      · intro hh
        exact absurd hh.1 hr

/-- Witness of C5, amended: a click that acts and inserts one paragraph. -/
theorem TriggerClick_flag_witness :
    (TriggerClick (fixedHost (.ok (some "true".toList)))
        [Mutation.mk 0 6 "/0/1".toList "P".toList []] freshDomino "a".toList).map
      (fun r => r.1) = some ("true".toList, true, none) :=
  (TriggerClick_flag (fixedHost (.ok (some "true".toList)))
      [Mutation.mk 0 6 "/0/1".toList "P".toList []] freshDomino
      { freshDomino with submitted := [clickScript "a".toList] } "a".toList "true".toList none
      rfl).1 rfl ▸ rfl

/-! ## Execution coordinator: comment stripping -/

theorem dropWhile_space_append (ws rest : Str) (hws : ws.all isSpace = true) :
    (ws ++ '<' :: rest).dropWhile isSpace = '<' :: rest := by
  induction ws with
  | nil =>
    have : isSpace '<' = false := by decide
    simp [List.dropWhile, this]
  | cons c cs ih =>
    simp only [List.all_cons, Bool.and_eq_true] at hws
    simp [List.dropWhile, hws.1, ih hws.2]

theorem stripOpen_wrapped (ws rest : Str) (hws : ws.all isSpace = true) :
    stripOpen (ws ++ "<!--".toList ++ rest) = "//".toList ++ rest := by
  have hd : (ws ++ "<!--".toList ++ rest).dropWhile isSpace = "<!--".toList ++ rest := by
    have := dropWhile_space_append ws ("!--".toList ++ rest) hws
    simpa using this
  simp only [stripOpen, hd]
  have hp : startsWith ("<!--".toList ++ rest) "<!--".toList = true := by
    simp [startsWith]
  rw [hp]
  rfl

theorem stripOpen_unchanged (script : Str) (hn : ¬ opensComment script) :
    stripOpen script = script := by
  simp only [stripOpen]
  split
  · rename_i hp
    exfalso
    apply hn
    rw [startsWith_iff] at hp
    obtain ⟨rest, hrest⟩ := hp
    refine ⟨script.takeWhile isSpace, rest, ?_, ?_⟩
    · rw [List.all_eq_true]
      intro c hc
      exact List.mem_takeWhile_imp hc
    · rw [List.append_assoc, hrest, List.takeWhile_append_dropWhile]
  · rfl

theorem tail_not_space (c : Char) (pre ws : Str) :
    ((c :: pre ++ "-->".toList ++ ws).drop 3).all isSpace = false := by
  have h1 : isSpace '>' = false := by decide
  have h2 : isSpace '-' = false := by decide
  rcases pre with _ | ⟨a, _ | ⟨b, rest⟩⟩
  · simp [h1]
  · simp [h2]
  · simp [h2]

theorem stripClose_wrapped (pre ws : Str) (hws : ws.all isSpace = true) :
    stripClose (pre ++ "-->".toList ++ ws) = pre ++ "//".toList := by
  induction pre with
  | nil =>
    have hp : startsWith ("-->".toList ++ ws) "-->".toList = true := by simp [startsWith]
    have hd : (("-->".toList ++ ws).drop 3) = ws := rfl
    show stripClose ('-' :: ('-' :: '>' :: ws)) = _
    unfold stripClose
    have hp2 : startsWith ('-' :: ('-' :: '>' :: ws)) "-->".toList = true := hp
    have hd2 : (('-' :: ('-' :: '>' :: ws)).drop 3) = ws := rfl
    rw [hp2, hd2, hws]
    rfl
  | cons c cs ih =>
    show stripClose (c :: (cs ++ "-->".toList ++ ws)) = _
    unfold stripClose
    have ht := tail_not_space c cs ws
    have ht2 : ((c :: (cs ++ "-->".toList ++ ws)).drop 3).all isSpace = false := by
      simpa using ht
    rw [ht2, Bool.and_false]
    simp only [Bool.false_eq_true, if_false]
    rw [ih]
    rfl

theorem stripClose_unchanged (script : Str) (hn : ¬ closesComment script) :
    stripClose script = script := by
  induction script with
  | nil => rfl
  | cons c cs ih =>
    unfold stripClose
    split
    · rename_i hc
      exfalso
      apply hn
      rw [Bool.and_eq_true, startsWith_iff] at hc
      obtain ⟨⟨rest, hrest⟩, hall⟩ := hc
      refine ⟨[], rest, ?_, ?_⟩
      · rw [← hrest] at hall
        simpa using hall
      · simp [← hrest]
    · have hcs : ¬ closesComment cs := by
        rintro ⟨pre, ws, hws, hcs⟩
        exact hn ⟨c :: pre, ws, hws, by simp [hcs]⟩
      rw [ih hcs]

/-- C7: from a script wrapped in "<!--" and "-->", with optional white space
before and after, `Exec` prepares "//" ++ s ++ "//" (after the preludes on a
bootstrap call), the payload s passed through unmodified; a script that
neither starts with optional white space plus "<!--" nor ends with "-->" plus
optional white space is prepared unchanged. -/
theorem comment_stripping_transparent (domIntf regenRt : Str) (initial : Bool) :
    (∀ s ws1 ws2 : Str, ws1.all isSpace = true → ws2.all isSpace = true →
      prepare domIntf regenRt (ws1 ++ "<!--".toList ++ s ++ "-->".toList ++ ws2) initial
        = (if initial then domIntf ++ regenRt else []) ++ ("//".toList ++ s ++ "//".toList)) ∧
    (∀ script : Str, ¬ opensComment script → ¬ closesComment script →
      prepare domIntf regenRt script initial
        = (if initial then domIntf ++ regenRt else []) ++ script) := by
  constructor
  · intro s ws1 ws2 h1 h2
    have ho : stripOpen (ws1 ++ "<!--".toList ++ s ++ "-->".toList ++ ws2)
        = "//".toList ++ s ++ "-->".toList ++ ws2 := by
      have := stripOpen_wrapped ws1 (s ++ "-->".toList ++ ws2) h1
      simpa [List.append_assoc] using this
    have hc := stripClose_wrapped ("//".toList ++ s) ws2 h2
    simp only [prepare, ho, hc]
    cases initial <;> simp
  · intro script hno hnc
    simp only [prepare, stripOpen_unchanged script hno, stripClose_unchanged script hnc]
    cases initial <;> simp

/-- Witness of C7: a wrapped script with white space around it, and a script
with no comment marker. -/
theorem comment_stripping_transparent_witness :
    prepare [] [] (" \n".toList ++ "<!--".toList ++ "f(1-->0);".toList ++ "-->".toList ++
        "\n".toList) false = "//".toList ++ "f(1-->0);".toList ++ "//".toList ∧
    prepare [] [] "x = 1;".toList false = "x = 1;".toList :=
  ⟨(comment_stripping_transparent [] [] false).1 "f(1-->0);".toList " \n".toList "\n".toList
      (by decide) (by decide),
   (comment_stripping_transparent [] [] false).2 "x = 1;".toList
      (by
        rintro ⟨ws, rest, _, hw⟩
        have hm : '<' ∈ "x = 1;".toList := by rw [hw]; simp
        exact absurd hm (by decide))
      (by
        rintro ⟨pre, ws, _, hw⟩
        have hm : '>' ∈ "x = 1;".toList := by rw [hw]; simp
        exact absurd hm (by decide))⟩

/-! ## Error diagnostics -/

set_option maxRecDepth 100000 in
/-- C9 fails on the code: for a syntax error at line 2 of a four-line script,
`IntrospectError` logs line 2 (labelled 1), line 3 and line 4; the line before
the failing one is never logged and the second line after it is. -/
theorem IntrospectError_context_shifted :
    IntrospectError "SyntaxError: (anonymous): Line 2:9 Unexpected token )".toList
        "var a = 1;\nvar b = );\nvar c = 3;\nvar d = 4;".toList
      = some [LogEntry.numbered 1 "var b = );".toList, LogEntry.numbered 2 "var c = 3;".toList,
          LogEntry.numbered 3 "var d = 4;".toList] := by
  rfl

set_option maxRecDepth 100000 in
/-- C10 fails on the code: `IntrospectError` panics when the marker has no
":col" part, when the row is 0, negative or not a number, and when the failing
line is over 100 bytes and the column lies more than 49 beyond its end; `Exec`
then brings the process down. -/
theorem IntrospectError_panics :
    IntrospectError "Error: see Line 3 at <eval>:1:7(3)".toList
        "throw new Error('see Line 3')".toList = none ∧
    IntrospectError "Error: see Line 0:0 at <eval>:1:7(3)".toList
        "throw new Error('see Line 0:0')".toList = none ∧
    IntrospectError "Error: see Line -1:0 at <eval>:1:7(3)".toList
        "throw new Error('see Line -1:0')".toList = none ∧
    IntrospectError "Error: see Line x:1 at <eval>:1:7(3)".toList
        "throw new Error('see Line x:1')".toList = none ∧
    IntrospectError "Error: see Line 1:200 at <eval>:1:7(3)".toList
        ("throw new Error('see Line 1:200'); //".toList ++ List.replicate 80 '-') = none ∧
    Exec (fixedHost (.error "Error: see Line 0:0 at <eval>:1:7(3)".toList)) freshDomino
        "throw new Error('see Line 0:0')".toList false = none := by
  refine ⟨?_, ?_, ?_, ?_, ?_, ?_⟩ <;> rfl

/-! ## Write and Retrieve -/

theorem writeScript_of_retrieveScript (path v E : Str) (hE : retrieveScript path = some E) :
    writeScript path v = .ok (E ++ " = '".toList ++ v ++ "'".toList) := by
  simp only [retrieveScript] at hE
  simp only [writeScript]
  split at hE
  · exact absurd hE (by simp)
  · rename_i hp
    rw [if_neg hp]
    split at hE
    · exact absurd hE (by simp)
    · rename_i dp hd
      simp only [Option.some.injEq] at hE
      rw [← hE]

theorem retrieveScript_of_writeScript (path v W : Str) (hW : writeScript path v = .ok W) :
    ∃ E, retrieveScript path = some E ∧ W = E ++ " = '".toList ++ v ++ "'".toList := by
  simp only [writeScript] at hW
  simp only [retrieveScript]
  split at hW
  · exact absurd hW (by simp)
  · rename_i hp
    rw [if_neg hp]
    split at hW
    · exact absurd hW (by simp)
    · rename_i dp hd
      simp only [Except.ok.injEq] at hW
      exact ⟨_, rfl, hW.symm⟩

/-- C6 fails on the code: for the path "/0/0/title" and the value "it's",
`Write` submits the expression E of `Retrieve` followed by " = 'it's'"; the
quoted text is no string literal of value "it's", the literal ends after "it"
and leaves "s'" behind, whereas the quoted text of the value "news" is the
literal of value "news". -/
theorem Write_unescaped_quote :
    retrieveScript "/0/0/title".toList
      = some "document.getElementsByTagName('body')[0].children[0].title".toList ∧
    writeScript "/0/0/title".toList "it's".toList
      = .ok "document.getElementsByTagName('body')[0].children[0].title = 'it's'".toList ∧
    readSingleQuoted .plain "it's'".toList = some ("it".toList, "s'".toList) ∧
    jsStringLiteralValue "'it's'".toList = none ∧
    jsStringLiteralValue "'news'".toList = some "news".toList := by
  refine ⟨by rfl, by rfl, by decide, by decide, by decide⟩

/-! ## Path resolver: segments -/

theorem le_decimalFrom (ds : Str) (n : Nat) : n ≤ decimalFrom n ds := by
  induction ds generalizing n with
  | nil => exact Nat.le_refl n
  | cons c cs ih =>
    have h := ih (n * 10 + (c.toNat - 48))
    have hstep : decimalFrom n (c :: cs) = decimalFrom (n * 10 + (c.toNat - 48)) cs := rfl
    rw [hstep]
    omega

theorem parseUintLoop_digits (ds : Str) (n : Nat) (hn : n < 2 ^ 64)
    (hd : ds.all (fun c => decide ('0' ≤ c ∧ c ≤ '9')) = true) :
    parseUintLoop ds n =
      if decimalFrom n ds < 2 ^ 64 then .value (decimalFrom n ds) else .bad .rangeErr := by
  induction ds generalizing n with
  | nil =>
    simp only [parseUintLoop, decimalFrom, List.foldl_nil, if_pos hn]
  | cons c cs ih =>
    simp only [List.all_cons, Bool.and_eq_true, decide_eq_true_eq] at hd
    have hstep : decimalFrom n (c :: cs) = decimalFrom (n * 10 + (c.toNat - 48)) cs := rfl
    have hge := le_decimalFrom cs (n * 10 + (c.toNat - 48))
    unfold parseUintLoop
    rw [if_pos hd.1, hstep]
    by_cases h1 : n ≥ (2 ^ 64 - 1) / 10 + 1
    · rw [if_pos h1, if_neg (by omega)]
    · rw [if_neg h1]
      by_cases h2 : n * 10 + (c.toNat - 48) ≥ 2 ^ 64
      · rw [if_pos h2, if_neg (by omega)]
      · rw [if_neg h2]
        exact ih _ (by omega) hd.2

theorem parseUintLoop_other (ds : Str) (n : Nat)
    (hd : ds.all (fun c => decide ('0' ≤ c ∧ c ≤ '9')) = false) :
    ∃ e, parseUintLoop ds n = .bad e := by
  induction ds generalizing n with
  | nil => simp at hd
  | cons c cs ih =>
    unfold parseUintLoop
    by_cases hc : '0' ≤ c ∧ c ≤ '9'
    · rw [if_pos hc]
      have hcs : cs.all (fun c => decide ('0' ≤ c ∧ c ≤ '9')) = false := by
        simp only [List.all_cons, decide_eq_true hc, Bool.true_and] at hd
        exact hd
      split
      · exact ⟨_, rfl⟩
      · split
        · exact ⟨_, rfl⟩
        · exact ih _ hcs
    · rw [if_neg hc]
      exact ⟨_, rfl⟩

theorem ParseUint_decimal (ds : Str) (hd : isDecimal ds = true) :
    ParseUint ds =
      if decimalValue ds < 2 ^ 64 then .value (decimalValue ds) else .bad .rangeErr := by
  simp only [isDecimal, Bool.and_eq_true, Bool.not_eq_true', List.isEmpty_eq_false] at hd
  unfold ParseUint
  rw [if_neg hd.1]
  exact parseUintLoop_digits ds 0 (by norm_num) hd.2

theorem ParseUint_other (ds : Str) (hd : isDecimal ds = false) :
    ∃ e, ParseUint ds = .bad e := by
  unfold ParseUint
  by_cases he : ds = []
  · rw [if_pos he]
    exact ⟨_, rfl⟩
  · rw [if_neg he]
    apply parseUintLoop_other
    cases hall : ds.all (fun c => decide ('0' ≤ c ∧ c ≤ '9')) with
    | false => rfl
    | true =>
      have hemp : ds.isEmpty = false := by
        cases ds with
        | nil => exact absurd rfl he
        | cons _ _ => rfl
      have : isDecimal ds = true := by
        unfold isDecimal
        rw [hall, hemp]
        rfl
      rw [hd] at this
      exact absurd this (by simp)

theorem signUint_bad (neg : Bool) (e : NumError) : ∃ v e1, signUint neg (.bad e) = (v, some e1) := by
  cases e
  · exact ⟨_, _, rfl⟩
  · cases neg <;> exact ⟨_, _, rfl⟩

theorem signUint_plus (un : Nat) :
    (un < 2 ^ 63 → signUint false (.value un) = ((un : Int), none)) ∧
    (2 ^ 63 ≤ un → ∃ v e, signUint false (.value un) = (v, some e)) := by
  constructor
  · intro h
    simp [signUint]
    omega
  · intro h
    have : decide (un ≥ 2 ^ 63) = true := by
      rw [decide_eq_true_eq]; omega
    simp only [signUint, this]
    exact ⟨_, _, rfl⟩

theorem signUint_minus (un : Nat) :
    (un ≤ 2 ^ 63 → signUint true (.value un) = (-(un : Int), none)) ∧
    (2 ^ 63 < un → ∃ v e, signUint true (.value un) = (v, some e)) := by
  constructor
  · intro h
    simp [signUint]
    omega
  · intro h
    have : decide (un > 2 ^ 63) = true := by
      rw [decide_eq_true_eq]; omega
    simp only [signUint, this]
    exact ⟨_, _, rfl⟩

theorem signUint_ParseUint_plus (ds : Str) (hd : isDecimal ds = true) :
    (decimalValue ds < 2 ^ 63 →
      signUint false (ParseUint ds) = ((decimalValue ds : Int), none)) ∧
    (2 ^ 63 ≤ decimalValue ds → ∃ v e, signUint false (ParseUint ds) = (v, some e)) := by
  rw [ParseUint_decimal ds hd]
  constructor
  · intro h
    rw [if_pos (by omega)]
    exact (signUint_plus _).1 h
  · intro h
    by_cases h64 : decimalValue ds < 2 ^ 64
    · rw [if_pos h64]
      exact (signUint_plus _).2 h
    · rw [if_neg h64]
      exact signUint_bad _ _

theorem signUint_ParseUint_minus (ds : Str) (hd : isDecimal ds = true) :
    (decimalValue ds ≤ 2 ^ 63 →
      signUint true (ParseUint ds) = (-(decimalValue ds : Int), none)) ∧
    (2 ^ 63 < decimalValue ds → ∃ v e, signUint true (ParseUint ds) = (v, some e)) := by
  rw [ParseUint_decimal ds hd]
  constructor
  · intro h
    rw [if_pos (by omega)]
    exact (signUint_minus _).1 h
  · intro h
    by_cases h64 : decimalValue ds < 2 ^ 64
    · rw [if_pos h64]
      exact (signUint_minus _).2 h
    · rw [if_neg h64]
      exact signUint_bad _ _

theorem signUint_ParseUint_other (neg : Bool) (ds : Str) (hd : isDecimal ds = false) :
    ∃ v e, signUint neg (ParseUint ds) = (v, some e) := by
  obtain ⟨e, he⟩ := ParseUint_other ds hd
  rw [he]
  exact signUint_bad _ _

/-- The function `Atoi` succeeds exactly on the decimal integers in the range of a 64-bit
`int`, with their value. -/
theorem Atoi_signedDecimal (seg : Str) :
    (∃ i, signedDecimal seg = some i ∧ (-(2 ^ 63 : Int) ≤ i ∧ i < 2 ^ 63) ∧
      Atoi seg = (i, none)) ∨
    ((∀ i, signedDecimal seg = some i → ¬ (-(2 ^ 63 : Int) ≤ i ∧ i < 2 ^ 63)) ∧
      atoiFails seg) := by
  rcases seg with _ | ⟨c, cs⟩
  · right
    exact ⟨by simp [signedDecimal], _, _, rfl⟩
  · by_cases hm : c = '-'
    · subst hm
      have hA : Atoi ('-' :: cs) = signUint true (ParseUint cs) := by
        simp [Atoi]
      cases hd : isDecimal cs with
      | false =>
        right
        refine ⟨by simp [signedDecimal, hd], ?_⟩
        unfold atoiFails
        rw [hA]
        exact signUint_ParseUint_other _ _ hd
      | true =>
        have hs : signedDecimal ('-' :: cs) = some (-(decimalValue cs : Int)) := by
          simp [signedDecimal, hd]
        have hsp := signUint_ParseUint_minus cs hd
        by_cases hr : decimalValue cs ≤ 2 ^ 63
        · left
          refine ⟨_, hs, ⟨by omega, by omega⟩, ?_⟩
          rw [hA]
          exact hsp.1 hr
        · right
          refine ⟨?_, ?_⟩
          · intro i hi
            rw [hs] at hi
            simp only [Option.some.injEq] at hi
            omega
          · unfold atoiFails
            rw [hA]
            exact hsp.2 (by omega)
    · by_cases hpl : c = '+'
      · subst hpl
        have hA : Atoi ('+' :: cs) = signUint false (ParseUint cs) := by
          simp [Atoi]
        cases hd : isDecimal cs with
        | false =>
          right
          refine ⟨by simp [signedDecimal, hd], ?_⟩
          unfold atoiFails
          rw [hA]
          exact signUint_ParseUint_other _ _ hd
        | true =>
          have hs : signedDecimal ('+' :: cs) = some (decimalValue cs : Int) := by
            simp [signedDecimal, hd]
          have hsp := signUint_ParseUint_plus cs hd
          by_cases hr : decimalValue cs < 2 ^ 63
          · left
            refine ⟨_, hs, ⟨by omega, by omega⟩, ?_⟩
            rw [hA]
            exact hsp.1 hr
          · right
            refine ⟨?_, ?_⟩
            · intro i hi
              rw [hs] at hi
              simp only [Option.some.injEq] at hi
              omega
            · unfold atoiFails
              rw [hA]
              exact hsp.2 (by omega)
      · have hA : Atoi (c :: cs) = signUint false (ParseUint (c :: cs)) := by
          simp [Atoi, hm, hpl]
        cases hd : isDecimal (c :: cs) with
        | false =>
          right
          refine ⟨by simp [signedDecimal, hd, hm, hpl], ?_⟩
          unfold atoiFails
          rw [hA]
          exact signUint_ParseUint_other _ _ hd
        | true =>
          have hs : signedDecimal (c :: cs) = some (decimalValue (c :: cs) : Int) := by
            simp [signedDecimal, hd, hm, hpl]
          have hsp := signUint_ParseUint_plus (c :: cs) hd
          by_cases hr : decimalValue (c :: cs) < 2 ^ 63
          · left
            refine ⟨_, hs, ⟨by omega, by omega⟩, ?_⟩
            rw [hA]
            exact hsp.1 hr
          · right
            refine ⟨?_, ?_⟩
            · intro i hi
              rw [hs] at hi
              simp only [Option.some.injEq] at hi
              omega
            · unfold atoiFails
              rw [hA]
              exact hsp.2 (by omega)

theorem docPathStep_eq (q el : Str) : docPathStep q el = q ++ segmentExpr el := by
  unfold docPathStep segmentExpr
  by_cases he : el = []
  · simp [he]
  · rw [if_neg he, if_neg he]
    rcases Atoi_signedDecimal el with ⟨i, hs, hr, ha⟩ | ⟨hs, v, e, ha⟩
    · rw [ha, hs]
      simp only [if_pos hr, List.append_assoc]
    · rw [ha]
      simp only
      cases hsd : signedDecimal el with
      | none => simp only [List.append_assoc]
      | some i =>
        simp only [if_neg (hs i hsd), List.append_assoc]

theorem foldl_docPathStep (segs : List Str) (q : Str) :
    segs.foldl docPathStep q = q ++ (segs.map segmentExpr).flatten := by
  induction segs generalizing q with
  | nil => simp
  | cons x xs ih =>
    rw [List.foldl_cons, ih, docPathStep_eq]
    simp

/-- C1 as stated fails: the segment "-1" is no non-negative integer, and
`docPath` turns it into the indexed-child access ".children[-1]", not into the
named-property access ".-1". -/
theorem docPath_negative_counterexample :
    docPath "/0/-1".toList
      = ("document.getElementsByTagName('body')[0].children[-1]".toList, none) ∧
    specDocPath "/-1".toList = "document.getElementsByTagName('body')[0].-1".toList ∧
    docPath "/0/-1".toList ≠ (specDocPath "/-1".toList, none) := by
  refine ⟨by rfl, by rfl, by decide⟩

/-- C1, amended: for every path that begins with "/0", `docPath` returns the
root expression followed, for each '/'-delimited segment of the remainder in
order, by nothing when the segment is empty, by ".children[i]" when the
segment is a decimal integer with an optional sign whose value i lies in the
range of a 64-bit int, and by "." ++ segment otherwise; in particular
docPath("/0/2/innerHTML") is the body's child 2's innerHTML. -/
theorem docPath_segments (path : Str) (hp : startsWith path "/0".toList = true) :
    docPath path = (bodyExpr ++ ((Split '/' (path.drop 2)).map segmentExpr).flatten, none) ∧
    docPath "/0/2/innerHTML".toList
      = ("document.getElementsByTagName('body')[0].children[2].innerHTML".toList, none) := by
  refine ⟨?_, by rfl⟩
  unfold docPath
  rw [hp]
  simp only [Bool.not_true, Bool.false_eq_true, if_false]
  have ht : trimStart path "/0".toList = path.drop 2 := by
    unfold trimStart
    rw [hp]
    rfl
  rw [ht, foldl_docPathStep]

/-- Witness of C1, amended, at a path with a negative, an empty, a signed, a
zero-padded, an out-of-range and a named segment. -/
theorem docPath_segments_witness :
    startsWith "/0/-1//+7/007/9223372036854775808/x".toList "/0".toList = true ∧
    docPath "/0/-1//+7/007/9223372036854775808/x".toList
      = (bodyExpr ++ ((Split '/' ("/0/-1//+7/007/9223372036854775808/x".toList.drop 2)).map
          segmentExpr).flatten, none) :=
  ⟨by decide, (docPath_segments "/0/-1//+7/007/9223372036854775808/x".toList (by decide)).1⟩

end Gojafs
